import Mathlib

/-!
Verification development for the Chimera v2 lay-betting application.

The frontend TypeScript sources (web-socket client, bet-slip store, formatting
utilities, market price store) are embedded directly from the code.  The
backend engine (scan loop, duplicate rule, daily stop-loss, price cache and
the reference "Mark's Rule Set 1" strategy) is not part of the shipped
sources, so those components are modelled from the specification and the
build prompt that describe them.

Numbers handled as floats in the source are modelled as rationals (ℚ);
JavaScript string rendering is modelled over lists of characters.
-/

namespace Chimera

/-! ### Currency formatting (frontend/src/lib/utils.ts, formatGBP) -/

/-- One decimal digit as a character. -/
def digitChar (d : ℕ) : Char := Char.ofNat (48 + d % 10)

/-- Decimal digits of a natural number, least significant first.
The first argument is fuel bounding the recursion depth. -/
def natToRevDigits : ℕ → ℕ → List Char
  | 0, _ => []
  | fuel + 1, n => if n = 0 then [] else digitChar (n % 10) :: natToRevDigits fuel (n / 10)

/-- Decimal rendering of a natural number as characters. -/
def natChars (n : ℕ) : List Char :=
  if n = 0 then ['0'] else (natToRevDigits n n).reverse

/-- Rendering of a non-negative rational with two decimal places, as in
JavaScript `x.toFixed(2)` (round half up on the non-negative inputs used). -/
def toFixedTwoChars (q : ℚ) : List Char :=
  let cents : ℕ := (⌊q * 100 + 1 / 2⌋).toNat
  natChars (cents / 100) ++ '.' ::
    (if cents % 100 < 10 then '0' :: natChars (cents % 100) else natChars (cents % 100))

/-- Characters produced by `formatGBP`: an optional plus sign (only when
`showSign` is set and the amount is strictly positive), the pound symbol and
the absolute amount to two decimal places. -/
def formatGBPChars (amount : ℚ) (showSign : Bool) : List Char :=
  (if showSign = true ∧ 0 < amount then ['+'] else []) ++ '£' :: toFixedTwoChars |amount|

/-- `formatGBP` from frontend/src/lib/utils.ts. -/
def formatGBP (amount : ℚ) (showSign : Bool) : String :=
  String.mk (formatGBPChars amount showSign)

/-! ### Web-socket reconnect backoff (frontend/src/lib/ws.ts, ChimeraWebSocket) -/

/-- Initial reconnect delay in milliseconds (`reconnectDelay = 1000`). -/
def wsBaseDelay : ℕ := 1000

/-- Cap on the reconnect delay in milliseconds (`maxReconnectDelay = 30000`). -/
def wsMaxDelay : ℕ := 30000

/-- The observable state of the `ChimeraWebSocket` client: the current
backoff delay, whether reconnection is wanted, the pending reconnect timer
(with the delay it was scheduled with) and the connection flag. -/
structure WSClient where
  reconnectDelay : ℕ
  shouldReconnect : Bool
  scheduled : Option ℕ
  connected : Bool
deriving DecidableEq, Repr

/-- Events driving the client: the socket opening, the socket closing, the
reconnect timer firing, and a deliberate `disconnect()` call. -/
inductive WSEvent
  | sockOpen
  | sockClose
  | timerFire
  | userDisconnect
deriving DecidableEq, Repr

/-- One step of the client, following the handlers in ws.ts:
`onopen` marks connected and resets the delay to the base; `onclose` marks
disconnected and, when reconnection is wanted and no timer is pending,
schedules a reconnect with the current delay (`_scheduleReconnect`); the
timer firing clears the pending timer, retries the connection and doubles
the delay up to the cap; `disconnect()` clears the wanted flag and cancels
any pending timer. -/
def wsStep (s : WSClient) : WSEvent → WSClient
  | .sockOpen => { s with connected := true, reconnectDelay := wsBaseDelay }
  | .sockClose =>
    if s.shouldReconnect then
      match s.scheduled with
      | some d => { s with connected := false, scheduled := some d }
      | none => { s with connected := false, scheduled := some s.reconnectDelay }
    else { s with connected := false }
  | .timerFire =>
    match s.scheduled with
    | none => s
    | some _ =>
      { s with scheduled := none,
               reconnectDelay := min (s.reconnectDelay * 2) wsMaxDelay }
  | .userDisconnect =>
    { s with shouldReconnect := false, scheduled := none, connected := false }

/-- One failed reconnection attempt: the connection closes (scheduling the
next attempt) and the timer then fires (retrying and doubling the delay). -/
def wsFailCycle (s : WSClient) : WSClient :=
  wsStep (wsStep s .sockClose) .timerFire

/-! ### Manual bet slip (frontend/src/store/betslip.ts) -/

/-- Payload of the order-placement request issued by `placeBet`. -/
structure OrderRequest where
  market_id : String
  selection_id : ℤ
  odds : ℚ
  stake : ℚ
deriving DecidableEq, Repr

/-- Outcome of the external `ordersApi.place` call: a response carrying a
status string, or a thrown error with a message. -/
inductive PlaceResponse
  | ok (status : String)
  | thrown (msg : String)
deriving DecidableEq, Repr

/-- Result stored in the slip's `lastResult` field. -/
inductive SlipResult
  | response (status : String)
  | errorResult (msg : String)
deriving DecidableEq, Repr

/-- The bet-slip store state. -/
structure SlipState where
  marketId : Option String
  selectionId : Option ℤ
  runnerName : Option String
  odds : ℚ
  stake : ℚ
  placing : Bool
  lastResult : Option SlipResult
deriving DecidableEq, Repr

/-- JavaScript falsiness of `string | null` (`!marketId`). -/
def jsFalsyStr : Option String → Bool
  | none => true
  | some s => s.isEmpty

/-- JavaScript falsiness of `number | null` (`!selectionId`). -/
def jsFalsyInt : Option ℤ → Bool
  | none => true
  | some n => n == 0

/-- `placeBet` from betslip.ts.  Returns the boolean result of the call, the
slip state afterwards, and the order request issued, if any.  The external
call's outcome is supplied as the function `resp`. -/
def placeBet (resp : OrderRequest → PlaceResponse) (st : SlipState) :
    Bool × SlipState × Option OrderRequest :=
  if jsFalsyStr st.marketId || jsFalsyInt st.selectionId
      || decide (st.odds ≤ 1) || decide (st.stake ≤ 0) then
    (false, st, none)
  else
    let req : OrderRequest :=
      ⟨st.marketId.getD "", st.selectionId.getD 0, st.odds, st.stake⟩
    match resp req with
    | .ok status =>
      (status == "SUCCESS",
        { st with placing := false, lastResult := some (.response status) }, some req)
    | .thrown msg =>
      (false,
        { st with placing := false, lastResult := some (.errorResult msg) }, some req)

/-! ### Price-cache ladder merge.

Modelled from the spec: the backend `PriceCache` delta-merge (spec §4.2 and
the build prompt's "Delta merge" rules) is not among the shipped sources —
only its consumers are.  A ladder side is a list of (price, size) levels
ordered by distance from the best price (ascending price for the lay side
modelled here). -/

/-- A (price, size) level of one side of a ladder. -/
abbrev PriceLevel := ℚ × ℚ

/-- Strict ordering of levels by distance from the best price. -/
def levelLt (a b : PriceLevel) : Prop := a.1 < b.1

instance : DecidableRel levelLt := fun a b => inferInstanceAs (Decidable (a.1 < b.1))

/-- Apply one (price, size) delta pair to a ladder side: an existing price
has its size replaced, a zero size removes the level, and a new price with
non-zero size is inserted preserving the ordering. -/
def applyLevel : List PriceLevel → ℚ → ℚ → List PriceLevel
  | [], p, s => if s = 0 then [] else [(p, s)]
  | (q, t) :: rest, p, s =>
    if p < q then
      (if s = 0 then (q, t) :: rest else (p, s) :: (q, t) :: rest)
    else if p = q then
      (if s = 0 then rest else (p, s) :: rest)
    else (q, t) :: applyLevel rest p s

/-- Apply one delta pair and evict the deepest level beyond the configured
depth. -/
def applyDeltaPair (depth : ℕ) (ladder : List PriceLevel) (ps : PriceLevel) :
    List PriceLevel :=
  (applyLevel ladder ps.1 ps.2).take depth

/-- Apply a delta update (a list of pairs) to a ladder side. -/
def applyDeltas (depth : ℕ) (ladder : List PriceLevel) (pairs : List PriceLevel) :
    List PriceLevel :=
  pairs.foldl (applyDeltaPair depth) ladder

/-- An image update replaces the ladder side wholesale. -/
def applyImage (pairs : List PriceLevel) : List PriceLevel := pairs

/-- Well-formedness of a ladder side: levels strictly ordered by distance
from the best price, no zero-size level, at most `depth` levels. -/
def LadderInv (depth : ℕ) (l : List PriceLevel) : Prop :=
  l.Pairwise levelLt ∧ (∀ x ∈ l, x.2 ≠ 0) ∧ l.length ≤ depth

/-! ### Engine data model.

Modelled from the spec: the backend engine loop, its mode state machine,
duplicate rule and daily stop-loss (spec §4.4, build prompt "Auto-Betting
Engine") are not among the shipped sources. -/

/-- Engine modes. -/
inductive Mode
  | STOPPED
  | STAGING
  | LIVE
  | PAUSED
deriving DecidableEq, Repr

/-- Source tag of a persisted bet. -/
inductive BetSource
  | AUTO
  | MANUAL
  | STAGED
deriving DecidableEq, Repr

/-- A persisted bet record (the fields the engine's control flow reads). -/
structure Bet where
  marketId : String
  selectionId : ℤ
  odds : ℚ
  stake : ℚ
  liability : ℚ
  source : BetSource
deriving DecidableEq, Repr

/-- Risk-limit settings of the engine. -/
structure EngineSettings where
  maxLiabilityPerBet : ℚ
  maxDailyExposure : ℚ
  dailyStopLoss : ℚ
  maxBetsPerRace : ℕ
  preRaceWindow : ℚ
deriving DecidableEq, Repr

/-- The persisted engine state. -/
structure EngineState where
  mode : Mode
  prevMode : Mode
  processedMarkets : List String
  dailyExposure : ℚ
  dailyPnl : ℚ
  betsPlacedToday : ℕ
  lastResetDate : ℕ
  settings : EngineSettings
  bets : List Bet
deriving DecidableEq, Repr

/-- `goLive`: the STAGING→LIVE transition clears the processed-markets set
and changes nothing else. -/
def goLive (s : EngineState) : Option EngineState :=
  if s.mode = Mode.STAGING then
    some { s with mode := Mode.LIVE, processedMarkets := [] }
  else none

/-- `goStaging`: the LIVE→STAGING transition clears the processed-markets
set and changes nothing else. -/
def goStaging (s : EngineState) : Option EngineState :=
  if s.mode = Mode.LIVE then
    some { s with mode := Mode.STAGING, processedMarkets := [] }
  else none

/-- `has_bet_on_market`: does a bet already exist for this market?  With
`excludeStaged` set, STAGED bets are ignored. -/
def hasBetOnMarket (bets : List Bet) (marketId : String) (excludeStaged : Bool) : Bool :=
  bets.any fun b => b.marketId == marketId && !(excludeStaged && b.source == BetSource.STAGED)

/-- The engine's duplicate rule: in LIVE mode STAGED bets are excluded from
the check; in any other mode every existing bet counts. -/
def duplicateCheck (s : EngineState) (marketId : String) : Bool :=
  hasBetOnMarket s.bets marketId (s.mode == Mode.LIVE)

/-- Market status as carried by a snapshot. -/
inductive MarketStatus
  | OPEN
  | SUSPENDED
  | CLOSED
deriving DecidableEq, Repr

/-- Per-runner context handed to plugins: the runner identifier and its
available-to-lay ladder. -/
structure RunnerCtx where
  selectionId : ℤ
  atl : List PriceLevel
deriving DecidableEq, Repr

/-- Market context built for one scan step. -/
structure MarketCtx where
  marketId : String
  status : MarketStatus
  inPlay : Bool
  minutesToStart : Option ℚ
  hasMetadata : Bool
  runners : List RunnerCtx
deriving DecidableEq, Repr

/-- Outcome of one evaluation. -/
inductive DecisionAction
  | ACCEPT
  | REJECT
  | SKIP
deriving DecidableEq, Repr

/-- Strategy zone classification of a price. -/
inductive Zone
  | PRIME
  | STRONG
  | SECONDARY
deriving DecidableEq, Repr

/-- A proposed bet candidate. -/
structure BetCandidate where
  selectionId : ℤ
  marketId : String
  odds : ℚ
  stake : ℚ
  liability : ℚ
  zone : Zone
deriving DecidableEq, Repr

/-- Result of one plugin evaluation. -/
structure PluginResult where
  action : DecisionAction
  candidates : List BetCandidate
  reason : String
deriving DecidableEq, Repr

/-- A strategy plugin: a pure function of the runners, the market context,
the daily P/L, the daily exposure, today's bets and the settings. -/
abbrev Plugin :=
  List RunnerCtx → MarketCtx → ℚ → ℚ → List Bet → EngineSettings → PluginResult

/-- One market's step of the scan cycle (spec §4.4 steps 3–9): eligibility
skips, the duplicate rule, the metadata join, the daily stop-loss guard
(plugin evaluation onward is skipped once cumulative daily P/L is at or
below the stop-loss), plugin evaluation, risk-limit enforcement and bet
recording. -/
def scanMarket (plugin : Plugin) (s : EngineState) (m : MarketCtx) :
    EngineState × DecisionAction :=
  if m.marketId ∈ s.processedMarkets then (s, .SKIP)
  else if m.status ≠ MarketStatus.OPEN then (s, .SKIP)
  else if m.inPlay then (s, .SKIP)
  else
    match m.minutesToStart with
    | none => (s, .SKIP)
    | some mins =>
      if mins < 0 ∨ s.settings.preRaceWindow < mins then (s, .SKIP)
      else if duplicateCheck s m.marketId then (s, .SKIP)
      else if ¬ m.hasMetadata then (s, .SKIP)
      else if s.dailyPnl ≤ s.settings.dailyStopLoss then (s, .SKIP)
      else
        let res := plugin m.runners m s.dailyPnl s.dailyExposure s.bets s.settings
        match res.action, res.candidates with
        | .ACCEPT, c :: _ =>
          if s.settings.maxLiabilityPerBet < c.liability
              ∨ s.settings.maxDailyExposure < s.dailyExposure + c.liability
              ∨ s.settings.maxBetsPerRace ≤
                  (s.bets.filter fun b => b.marketId == m.marketId).length then
            ({ s with processedMarkets := m.marketId :: s.processedMarkets }, .REJECT)
          else
            let src := if s.mode = Mode.LIVE then BetSource.AUTO else BetSource.STAGED
            let bet : Bet := ⟨m.marketId, c.selectionId, c.odds, c.stake, c.liability, src⟩
            ({ s with
                bets := s.bets ++ [bet],
                dailyExposure := s.dailyExposure + c.liability,
                betsPlacedToday := s.betsPlacedToday + 1,
                processedMarkets := m.marketId :: s.processedMarkets }, .ACCEPT)
        | .ACCEPT, [] =>
          ({ s with processedMarkets := m.marketId :: s.processedMarkets }, .SKIP)
        | a, _ =>
          ({ s with processedMarkets := m.marketId :: s.processedMarkets }, a)

/-- One full scan cycle over the eligible markets, collecting the recorded
outcome for each market. -/
def scanCycle (plugin : Plugin) (s : EngineState) (ms : List MarketCtx) :
    EngineState × List DecisionAction :=
  ms.foldl (fun acc m =>
    let r := scanMarket plugin acc.1 m
    (r.1, acc.2 ++ [r.2])) (s, [])

/-! ### Reference strategy.

Modelled from the spec: the "Mark's Rule Set 1" tiered lay-staking plugin
(spec §4.5, build prompt Rules 1–5) is not among the shipped sources. -/

/-- Configuration of the reference strategy. -/
structure StrategyConfig where
  skipTopN : ℕ
  longHorizonMins : ℚ
  minStake : ℚ
  primeStake : ℚ
  strongStake : ℚ
  secondaryStake : ℚ
deriving DecidableEq, Repr

/-- Default configuration: skip the top 2 favourites, halve beyond 420
minutes, £1 minimum stake, £3 PRIME stake, £2 STRONG/SECONDARY stakes. -/
def defaultStrategyConfig : StrategyConfig :=
  ⟨2, 420, 1, 3, 2, 2⟩

/-- The best (lowest) available-to-lay price of a runner, if any. -/
def bestLay (r : RunnerCtx) : Option ℚ :=
  match r.atl.map Prod.fst with
  | [] => none
  | p :: ps => some (ps.foldl min p)

/-- Zone classification by price band: PRIME 3.50–3.99, STRONG 3.00–3.49,
SECONDARY 4.00–4.49; anything else does not qualify. -/
def classifyZone (p : ℚ) : Option Zone :=
  if 3.5 ≤ p ∧ p ≤ 3.99 then some Zone.PRIME
  else if 3 ≤ p ∧ p ≤ 3.49 then some Zone.STRONG
  else if 4 ≤ p ∧ p ≤ 4.49 then some Zone.SECONDARY
  else none

/-- Base stake of a zone. -/
def baseStake (cfg : StrategyConfig) : Zone → ℚ
  | Zone.PRIME => cfg.primeStake
  | Zone.STRONG => cfg.strongStake
  | Zone.SECONDARY => cfg.secondaryStake

/-- Stake after the time filter: beyond the long horizon the stake is
halved, clamped up to the minimum stake. -/
def stakeFor (cfg : StrategyConfig) (mins : ℚ) (z : Zone) : ℚ :=
  if cfg.longHorizonMins < mins then max cfg.minStake (baseStake cfg z / 2)
  else baseStake cfg z

/-- Zone priority for candidate selection (lower is preferred). -/
def zoneRank : Zone → ℕ
  | Zone.PRIME => 0
  | Zone.STRONG => 1
  | Zone.SECONDARY => 2

/-- Pick the preferred of two candidates: by zone priority, ties broken by
best (lowest) price. -/
def betterCandidate (a b : BetCandidate) : BetCandidate :=
  if zoneRank a.zone < zoneRank b.zone then a
  else if zoneRank b.zone < zoneRank a.zone then b
  else if a.odds ≤ b.odds then a
  else b

/-- Select at most one candidate from the qualifying list. -/
def pickBest : List BetCandidate → Option BetCandidate
  | [] => none
  | c :: cs => some (cs.foldl betterCandidate c)

/-- Ordering of (runner, best-lay-price) pairs by price. -/
def priceLE (a b : RunnerCtx × ℚ) : Prop := a.2 ≤ b.2

instance : DecidableRel priceLE := fun a b => inferInstanceAs (Decidable (a.2 ≤ b.2))

instance : IsTotal (RunnerCtx × ℚ) priceLE := ⟨fun a b => le_total a.2 b.2⟩

instance : IsTrans (RunnerCtx × ℚ) priceLE := ⟨fun _ _ _ h1 h2 => le_trans h1 h2⟩

/-- Runners paired with their best lay price (runners without one drop out). -/
def pricedRunners (runners : List RunnerCtx) : List (RunnerCtx × ℚ) :=
  runners.filterMap fun r => (bestLay r).map fun p => (r, p)

/-- Runners sorted by best lay price, best first. -/
def sortedByLay (runners : List RunnerCtx) : List (RunnerCtx × ℚ) :=
  List.insertionSort priceLE (pricedRunners runners)

/-- The favourite filter: drop the `skipTopN` runners with the best (lowest)
lay price; only the rest may be candidates. -/
def nonFavourites (cfg : StrategyConfig) (runners : List RunnerCtx) :
    List (RunnerCtx × ℚ) :=
  (sortedByLay runners).drop cfg.skipTopN

/-- Build the candidate for a qualifying runner. -/
def mkCandidate (cfg : StrategyConfig) (marketId : String) (mins : ℚ)
    (rp : RunnerCtx × ℚ) (z : Zone) : BetCandidate :=
  let st := stakeFor cfg mins z
  ⟨rp.1.selectionId, marketId, rp.2, st, st * (rp.2 - 1), z⟩

/-- All qualifying candidates of a race: non-favourite runners whose best
lay price falls in a zone. -/
def qualifyingCandidates (cfg : StrategyConfig) (marketId : String) (mins : ℚ)
    (runners : List RunnerCtx) : List BetCandidate :=
  (nonFavourites cfg runners).filterMap fun rp =>
    (classifyZone rp.2).map (mkCandidate cfg marketId mins rp)

/-- The reference strategy's evaluation of one race: at most one candidate,
preferred by zone then price; ACCEPT exactly when a candidate exists. -/
def marksRule1Evaluate (cfg : StrategyConfig) (marketId : String)
    (runners : List RunnerCtx) (mins : ℚ) : PluginResult :=
  match pickBest (qualifyingCandidates cfg marketId mins runners) with
  | some c => ⟨DecisionAction.ACCEPT, [c], "qualifying lay candidate"⟩
  | none => ⟨DecisionAction.SKIP, [], "no qualifying runners"⟩

/-! ## Theorems -/

/-! ### C9: bet-slip guard -/

/-- Claim C9: when the market identifier or selection identifier is unset,
or the odds are at most 1, or the stake is at most 0, `placeBet` returns
false, issues no order-placement request and leaves the slip state
unchanged (so `placing` and `lastResult` keep their values). -/
theorem placeBet_guard (resp : OrderRequest → PlaceResponse) (st : SlipState)
    (h : st.marketId = none ∨ st.selectionId = none ∨ st.odds ≤ 1 ∨ st.stake ≤ 0) :
    placeBet resp st = (false, st, none) := by
  unfold placeBet
  have hguard : (jsFalsyStr st.marketId || jsFalsyInt st.selectionId
      || decide (st.odds ≤ 1) || decide (st.stake ≤ 0)) = true := by
    rcases h with h | h | h | h
    · simp [jsFalsyStr, h]
    · simp [jsFalsyInt, h]
    · simp [h]
    · simp [h]
  simp [hguard]

/-- Witness for C9 at a slip with the market identifier unset. -/
theorem placeBet_guard_witness :
    placeBet (fun _ => PlaceResponse.ok "SUCCESS")
        ⟨none, some 123, none, 3.5, 2, false, none⟩ =
      (false, ⟨none, some 123, none, 3.5, 2, false, none⟩, none) :=
  placeBet_guard _ _ (Or.inl rfl)

/-! ### C10: currency formatting -/

theorem digitChar_ne_minus (d : ℕ) : digitChar d ≠ '-' := by
  unfold digitChar
  have h : d % 10 < 10 := Nat.mod_lt _ (by decide)
  set k := d % 10 with hk
  interval_cases k <;> decide

theorem natToRevDigits_ne_minus (fuel : ℕ) :
    ∀ n, ∀ c ∈ natToRevDigits fuel n, c ≠ '-' := by
  induction fuel with
  | zero => intro n c hc; simp [natToRevDigits] at hc
  | succ f ih =>
    intro n c hc
    unfold natToRevDigits at hc
    by_cases h : n = 0
    · simp [h] at hc
    · simp only [h, if_false] at hc
      rcases List.mem_cons.mp hc with h1 | h1
      · exact h1 ▸ digitChar_ne_minus _
      · exact ih _ c h1

theorem natChars_ne_minus (n : ℕ) : ∀ c ∈ natChars n, c ≠ '-' := by
  intro c hc
  unfold natChars at hc
  by_cases h : n = 0
  · simp [h] at hc
    simp [hc]
  · simp only [h, if_false] at hc
    exact natToRevDigits_ne_minus n n c (List.mem_reverse.mp hc)

theorem toFixedTwoChars_ne_minus (q : ℚ) : ∀ c ∈ toFixedTwoChars q, c ≠ '-' := by
  intro c hc
  unfold toFixedTwoChars at hc
  rcases List.mem_append.mp hc with h1 | h1
  · exact natChars_ne_minus _ c h1
  · rcases List.mem_cons.mp h1 with h2 | h2
    · simp [h2]
    · split at h2
      · rcases List.mem_cons.mp h2 with h3 | h3
        · simp [h3]
        · exact natChars_ne_minus _ c h3
      · exact natChars_ne_minus _ c h2

/-- Claim C10: `formatGBP` renders the absolute value of the amount to two
decimal places after the pound symbol; a plus sign appears exactly when
`showSign` is true and the amount is strictly positive; no minus sign is
ever produced, even for negative amounts with `showSign` set. -/
theorem formatGBP_sign_abs (a : ℚ) (s : Bool) :
    ((s = true ∧ 0 < a) → (formatGBP a s).data = '+' :: '£' :: toFixedTwoChars |a|)
    ∧ (¬ (s = true ∧ 0 < a) → (formatGBP a s).data = '£' :: toFixedTwoChars |a|)
    ∧ '-' ∉ (formatGBP a s).data
    ∧ formatGBP a false = formatGBP (-a) false := by
  refine ⟨fun h => ?_, fun h => ?_, ?_, ?_⟩
  · simp [formatGBP, formatGBPChars, h]
  · simp [formatGBP, formatGBPChars, h]
  · intro hc
    simp only [formatGBP, String.mk] at hc
    unfold formatGBPChars at hc
    rcases List.mem_append.mp hc with h1 | h1
    · split at h1 <;> simp at h1
    · rcases List.mem_cons.mp h1 with h2 | h2
      · simp at h2
      · exact toFixedTwoChars_ne_minus _ _ h2 rfl
  · simp [formatGBP, formatGBPChars, abs_neg]

/-- Witness for C10 at a negative amount with `showSign` set: the rendered
characters carry no plus and no minus sign. -/
theorem formatGBP_sign_abs_witness :
    (formatGBP (-3.5) true).data = '£' :: toFixedTwoChars |(-3.5 : ℚ)|
    ∧ '-' ∉ (formatGBP (-3.5) true).data :=
  ⟨(formatGBP_sign_abs (-3.5) true).2.1 (by norm_num),
    (formatGBP_sign_abs (-3.5) true).2.2.1⟩

/-! ### C8: web-socket reconnect backoff -/

theorem min_mul_min (a b c : ℕ) (hb : 1 ≤ b) : min (min a c * b) c = min (a * b) c := by
  rcases le_total a c with h | h
  · rw [min_eq_left h]
  · rw [min_eq_right h]
    have h1 : c ≤ c * b := by
      calc c = c * 1 := (mul_one c).symm
        _ ≤ c * b := Nat.mul_le_mul_left c hb
    have h2 : c ≤ a * b := le_trans h1 (Nat.mul_le_mul_right b h)
    rw [min_eq_right h1, min_eq_right h2]

theorem wsFailCycle_step (s : WSClient) (h1 : s.shouldReconnect = true)
    (h2 : s.scheduled = none) :
    wsFailCycle s =
      { s with connected := false, scheduled := none,
               reconnectDelay := min (s.reconnectDelay * 2) wsMaxDelay } := by
  simp [wsFailCycle, wsStep, h1, h2]

theorem wsFailCycle_invariant (n : ℕ) :
    ∀ s : WSClient, s.shouldReconnect = true → s.scheduled = none →
    s.reconnectDelay ≤ wsMaxDelay →
    (wsFailCycle^[n] s).shouldReconnect = true
    ∧ (wsFailCycle^[n] s).scheduled = none
    ∧ (wsFailCycle^[n] s).reconnectDelay = min (s.reconnectDelay * 2 ^ n) wsMaxDelay := by
  induction n with
  | zero =>
    intro s h1 h2 h3
    refine ⟨h1, h2, ?_⟩
    simp only [Function.iterate_zero, id_eq, pow_zero, mul_one]
    omega
  | succ k ih =>
    intro s h1 h2 h3
    rw [Function.iterate_succ_apply, wsFailCycle_step s h1 h2]
    obtain ⟨a, b, c⟩ :=
      ih { s with connected := false, scheduled := none, reconnectDelay := min (s.reconnectDelay * 2) wsMaxDelay } h1 rfl (min_le_right _ _)
    refine ⟨a, b, ?_⟩
    rw [c]
    simp only []
    rw [min_mul_min _ _ _ Nat.one_le_two_pow]
    have hpow : s.reconnectDelay * 2 * 2 ^ k = s.reconnectDelay * 2 ^ (k + 1) := by ring
    rw [hpow]

/-- Claim C8: starting from a fresh successful connection the reconnect
delay is the base delay; after `n` consecutive failed attempts it equals the
base delay doubled `n` times, capped at the maximum; the next close
schedules a reconnect with exactly that delay; the delay never exceeds the
cap; and after a deliberate `disconnect()` no reconnect is scheduled, even
when the socket subsequently closes. -/
theorem ws_backoff_spec (s : WSClient) (n : ℕ)
    (h1 : s.shouldReconnect = true) (h2 : s.scheduled = none) :
    (wsFailCycle^[n] (wsStep s .sockOpen)).reconnectDelay
        = min (wsBaseDelay * 2 ^ n) wsMaxDelay
    ∧ (wsStep (wsFailCycle^[n] (wsStep s .sockOpen)) .sockClose).scheduled
        = some (min (wsBaseDelay * 2 ^ n) wsMaxDelay)
    ∧ (wsFailCycle^[n] (wsStep s .sockOpen)).reconnectDelay ≤ wsMaxDelay
    ∧ (wsStep s .sockOpen).reconnectDelay = wsBaseDelay
    ∧ (wsStep s .userDisconnect).scheduled = none
    ∧ (wsStep s .userDisconnect).shouldReconnect = false
    ∧ ∀ e, (wsStep (wsStep s .userDisconnect) e).scheduled = none := by
  have hopen : (wsStep s .sockOpen).shouldReconnect = true := h1
  have hopen2 : (wsStep s .sockOpen).scheduled = none := h2
  have hopen3 : (wsStep s .sockOpen).reconnectDelay = wsBaseDelay := rfl
  obtain ⟨a, b, c⟩ := wsFailCycle_invariant n (wsStep s .sockOpen) hopen hopen2
    (by rw [hopen3]; simp [wsBaseDelay, wsMaxDelay])
  rw [hopen3] at c
  refine ⟨c, ?_, ?_, rfl, rfl, rfl, ?_⟩
  · have hclose : (wsStep (wsFailCycle^[n] (wsStep s .sockOpen)) .sockClose).scheduled
        = some (wsFailCycle^[n] (wsStep s .sockOpen)).reconnectDelay := by
      generalize wsFailCycle^[n] (wsStep s .sockOpen) = t at a b
      simp [wsStep, a, b]
    rw [hclose, c]
  · rw [c]; exact min_le_right _ _
  · intro e
    cases e <;> simp [wsStep]

/-- Witness for C8: after three failed attempts from a fresh connection the
delay is 8000 ms. -/
theorem ws_backoff_witness :
    (wsFailCycle^[3] (wsStep ⟨1000, true, none, false⟩ WSEvent.sockOpen)).reconnectDelay
      = min (wsBaseDelay * 2 ^ 3) wsMaxDelay :=
  (ws_backoff_spec ⟨1000, true, none, false⟩ 3 rfl rfl).1

/-! ### C1: daily stop-loss halts new risk -/

theorem scanMarket_stopLoss (plugin : Plugin) (s : EngineState) (m : MarketCtx)
    (h : s.dailyPnl ≤ s.settings.dailyStopLoss) :
    scanMarket plugin s m = (s, DecisionAction.SKIP) := by
  unfold scanMarket
  by_cases h1 : m.marketId ∈ s.processedMarkets
  · rw [if_pos h1]
  rw [if_neg h1]
  by_cases h2 : m.status ≠ MarketStatus.OPEN
  · rw [if_pos h2]
  rw [if_neg h2]
  by_cases h3 : m.inPlay = true
  · rw [if_pos h3]
  rw [if_neg h3]
  cases hm : m.minutesToStart with
  | none => rfl
  | some mins =>
    dsimp only
    by_cases h4 : mins < 0 ∨ s.settings.preRaceWindow < mins
    · rw [if_pos h4]
    rw [if_neg h4]
    by_cases h5 : duplicateCheck s m.marketId = true
    · rw [if_pos h5]
    rw [if_neg h5]
    by_cases h6 : ¬ m.hasMetadata = true
    · rw [if_pos h6]
    rw [if_neg h6, if_pos h]

theorem scanCycle_stopLoss_fold (plugin : Plugin) (s : EngineState)
    (h : s.dailyPnl ≤ s.settings.dailyStopLoss) (ms : List MarketCtx) :
    ∀ acc : List DecisionAction,
      ms.foldl (fun acc m =>
          let r := scanMarket plugin acc.1 m
          (r.1, acc.2 ++ [r.2])) (s, acc)
        = (s, acc ++ List.replicate ms.length DecisionAction.SKIP) := by
  induction ms with
  | nil => intro acc; simp
  | cons m tl ih =>
    intro acc
    simp only [List.foldl_cons, scanMarket_stopLoss plugin s m h]
    rw [ih (acc ++ [DecisionAction.SKIP])]
    simp [List.replicate_succ]

/-- Claim C1: once the cumulative daily realized P/L is at or below the
configured stop-loss threshold, a scan cycle records no ACCEPT outcome for
any market — whatever any plugin would return — and the existing bets are
left unchanged. -/
theorem stop_loss_halts_new_accepts (plugin : Plugin) (s : EngineState)
    (ms : List MarketCtx) (h : s.dailyPnl ≤ s.settings.dailyStopLoss) :
    (scanCycle plugin s ms).1.bets = s.bets
    ∧ ∀ a ∈ (scanCycle plugin s ms).2, a ≠ DecisionAction.ACCEPT := by
  have hc : scanCycle plugin s ms = (s, List.replicate ms.length DecisionAction.SKIP) := by
    unfold scanCycle
    simpa using scanCycle_stopLoss_fold plugin s h ms []
  rw [hc]
  refine ⟨rfl, ?_⟩
  intro a ha
  rw [List.eq_of_mem_replicate ha]
  intro hcontra
  exact DecisionAction.noConfusion hcontra

/-- Witness for C1: a breached stop-loss with one eligible market and a
plugin that always accepts still records no ACCEPT and leaves the bets
unchanged. -/
theorem stop_loss_halts_new_accepts_witness :
    (scanCycle
        (fun _ _ _ _ _ _ => ⟨DecisionAction.ACCEPT, [⟨7, "mkt1", 3.5, 3, 7.5, Zone.PRIME⟩], "always"⟩)
        ⟨Mode.LIVE, Mode.STOPPED, [], 0, -25, 0, 0, ⟨9, 75, -25, 1, 30⟩, []⟩
        [⟨"mkt1", MarketStatus.OPEN, false, some 10, true, []⟩]).1.bets = []
    ∧ ∀ a ∈ (scanCycle
        (fun _ _ _ _ _ _ => ⟨DecisionAction.ACCEPT, [⟨7, "mkt1", 3.5, 3, 7.5, Zone.PRIME⟩], "always"⟩)
        ⟨Mode.LIVE, Mode.STOPPED, [], 0, -25, 0, 0, ⟨9, 75, -25, 1, 30⟩, []⟩
        [⟨"mkt1", MarketStatus.OPEN, false, some 10, true, []⟩]).2, a ≠ DecisionAction.ACCEPT :=
  stop_loss_halts_new_accepts _ _ _ (by norm_num)

/-! ### C2: mode-asymmetric duplicate rule -/

/-- Claim C2: the duplicate check is mode-asymmetric.  When the existing
bets on a market are all STAGED, the LIVE-mode check (which excludes STAGED
bets) reports no duplicate; the STAGING-mode check (where every bet counts,
STAGED or not) reports a duplicate whenever any bet for the market exists,
of whatever source. -/
theorem duplicate_rule_mode_asymmetric (bets : List Bet) (m : String) :
    ((∀ b ∈ bets, b.marketId = m → b.source = BetSource.STAGED) →
      hasBetOnMarket bets m true = false)
    ∧ ((∃ b ∈ bets, b.marketId = m) → hasBetOnMarket bets m false = true)
    ∧ (∀ s : EngineState, s.bets = bets → s.mode = Mode.LIVE →
        (∀ b ∈ bets, b.marketId = m → b.source = BetSource.STAGED) →
        duplicateCheck s m = false)
    ∧ (∀ s : EngineState, s.bets = bets → s.mode = Mode.STAGING →
        (∃ b ∈ bets, b.marketId = m) →
        duplicateCheck s m = true) := by
  have h1 : (∀ b ∈ bets, b.marketId = m → b.source = BetSource.STAGED) →
      hasBetOnMarket bets m true = false := by
    intro hstaged
    simp only [hasBetOnMarket, List.any_eq_false]
    intro b hb
    by_cases hm : b.marketId = m
    · have hsrc := hstaged b hb hm
      simp [hm, hsrc]
    · simp [hm]
  have h2 : (∃ b ∈ bets, b.marketId = m) → hasBetOnMarket bets m false = true := by
    rintro ⟨b, hb, hm⟩
    simp only [hasBetOnMarket, List.any_eq_true]
    exact ⟨b, hb, by simp [hm]⟩
  refine ⟨h1, h2, ?_, ?_⟩
  · intro s hsb hmode hstaged
    simp only [duplicateCheck, hsb, hmode]
    exact h1 hstaged
  · intro s hsb hmode hexists
    simp only [duplicateCheck, hsb, hmode]
    exact h2 hexists

/-- Witness for C2: a market whose only bet is STAGED is not a duplicate in
LIVE mode but is one in STAGING mode, and a market holding an AUTO bet is
also a duplicate in STAGING mode. -/
theorem duplicate_rule_witness :
    hasBetOnMarket [⟨"m1", 1, 3.5, 2, 5, BetSource.STAGED⟩] "m1" true = false
    ∧ hasBetOnMarket [⟨"m1", 1, 3.5, 2, 5, BetSource.STAGED⟩] "m1" false = true
    ∧ hasBetOnMarket [⟨"m1", 1, 3.5, 2, 5, BetSource.AUTO⟩] "m1" false = true :=
  ⟨(duplicate_rule_mode_asymmetric [⟨"m1", 1, 3.5, 2, 5, BetSource.STAGED⟩] "m1").1
      (by intro b hb _; simp at hb; simp [hb]),
    (duplicate_rule_mode_asymmetric [⟨"m1", 1, 3.5, 2, 5, BetSource.STAGED⟩] "m1").2.1
      ⟨_, List.mem_singleton_self _, rfl⟩,
    (duplicate_rule_mode_asymmetric [⟨"m1", 1, 3.5, 2, 5, BetSource.AUTO⟩] "m1").2.1
      ⟨_, List.mem_singleton_self _, rfl⟩⟩

/-! ### C3: mode transitions clear the processed-markets set and nothing else -/

/-- Claim C3: `goLive` (STAGING→LIVE) and `goStaging` (LIVE→STAGING) empty
the processed-markets set and change no other engine-state field: exposure,
P/L, bet count, last-reset date, settings, previous mode and the bet list
are untouched. -/
theorem mode_transition_clears_processed (s t u : EngineState) :
    (s.mode = Mode.STAGING → goLive s = some t →
      t.mode = Mode.LIVE ∧ t.processedMarkets = []
      ∧ t.prevMode = s.prevMode ∧ t.dailyExposure = s.dailyExposure
      ∧ t.dailyPnl = s.dailyPnl ∧ t.betsPlacedToday = s.betsPlacedToday
      ∧ t.lastResetDate = s.lastResetDate ∧ t.settings = s.settings
      ∧ t.bets = s.bets)
    ∧ (s.mode = Mode.LIVE → goStaging s = some u →
      u.mode = Mode.STAGING ∧ u.processedMarkets = []
      ∧ u.prevMode = s.prevMode ∧ u.dailyExposure = s.dailyExposure
      ∧ u.dailyPnl = s.dailyPnl ∧ u.betsPlacedToday = s.betsPlacedToday
      ∧ u.lastResetDate = s.lastResetDate ∧ u.settings = s.settings
      ∧ u.bets = s.bets) := by
  constructor
  · intro hmode heq
    unfold goLive at heq
    rw [if_pos hmode] at heq
    injection heq with heq
    subst heq
    exact ⟨rfl, rfl, rfl, rfl, rfl, rfl, rfl, rfl, rfl⟩
  · intro hmode heq
    unfold goStaging at heq
    rw [if_pos hmode] at heq
    injection heq with heq
    subst heq
    exact ⟨rfl, rfl, rfl, rfl, rfl, rfl, rfl, rfl, rfl⟩

/-- Witness for C3 at a concrete STAGING state with a non-empty
processed-markets set. -/
theorem mode_transition_witness :
    goLive ⟨Mode.STAGING, Mode.STOPPED, ["m1", "m2"], 10, -5, 2, 20260101, ⟨9, 75, -25, 1, 30⟩, []⟩
        = some ⟨Mode.LIVE, Mode.STOPPED, [], 10, -5, 2, 20260101, ⟨9, 75, -25, 1, 30⟩, []⟩
    ∧ (⟨Mode.LIVE, Mode.STOPPED, [], 10, -5, 2, 20260101, ⟨9, 75, -25, 1, 30⟩, []⟩ :
        EngineState).processedMarkets = [] :=
  ⟨rfl,
    ((mode_transition_clears_processed
        ⟨Mode.STAGING, Mode.STOPPED, ["m1", "m2"], 10, -5, 2, 20260101, ⟨9, 75, -25, 1, 30⟩, []⟩
        ⟨Mode.LIVE, Mode.STOPPED, [], 10, -5, 2, 20260101, ⟨9, 75, -25, 1, 30⟩, []⟩
        ⟨Mode.LIVE, Mode.STOPPED, [], 10, -5, 2, 20260101, ⟨9, 75, -25, 1, 30⟩, []⟩).1
      rfl rfl).2.1⟩

/-! ### C4: ladder merge invariants -/

theorem mem_applyLevel : ∀ (l : List PriceLevel) (p s : ℚ), ∀ x ∈ applyLevel l p s,
    x ∈ l ∨ (x = (p, s) ∧ s ≠ 0)
  | [], p, s => by
    intro x hx
    unfold applyLevel at hx
    split at hx
    · simp at hx
    · simp at hx
      exact Or.inr ⟨hx, by assumption⟩
  | (q, t) :: rest, p, s => by
    intro x hx
    unfold applyLevel at hx
    split at hx
    · split at hx
      · exact Or.inl hx
      · rcases List.mem_cons.mp hx with h | h
        · exact Or.inr ⟨h, by assumption⟩
        · exact Or.inl h
    · split at hx
      · split at hx
        · exact Or.inl (List.mem_cons_of_mem _ hx)
        · rcases List.mem_cons.mp hx with h | h
          · exact Or.inr ⟨h, by assumption⟩
          · exact Or.inl (List.mem_cons_of_mem _ h)
      · rcases List.mem_cons.mp hx with h | h
        · exact Or.inl (h ▸ List.mem_cons_self _ _)
        · rcases mem_applyLevel rest p s x h with h2 | h2
          · exact Or.inl (List.mem_cons_of_mem _ h2)
          · exact Or.inr h2

theorem applyLevel_sizes (l : List PriceLevel) (p s : ℚ) (h : ∀ x ∈ l, x.2 ≠ 0) :
    ∀ x ∈ applyLevel l p s, x.2 ≠ 0 := by
  intro x hx
  rcases mem_applyLevel l p s x hx with h1 | h1
  · exact h x h1
  · rw [h1.1]
    exact h1.2

theorem applyLevel_pairwise : ∀ (l : List PriceLevel) (p s : ℚ),
    l.Pairwise levelLt → (applyLevel l p s).Pairwise levelLt
  | [], p, s => by
    intro _
    unfold applyLevel
    split
    · exact List.Pairwise.nil
    · exact List.pairwise_singleton _ _
  | (q, t) :: rest, p, s => by
    intro h
    have hq : ∀ x ∈ rest, levelLt (q, t) x := (List.pairwise_cons.mp h).1
    have hrest : rest.Pairwise levelLt := (List.pairwise_cons.mp h).2
    unfold applyLevel
    split
    · split
      · exact h
      · refine List.pairwise_cons.mpr ⟨?_, h⟩
        intro x hx
        rcases List.mem_cons.mp hx with h1 | h1
        · rw [h1]
          exact (by assumption : p < q)
        · exact lt_trans (by assumption : p < q) (hq x h1)
    · split
      · split
        · exact hrest
        · refine List.pairwise_cons.mpr ⟨?_, hrest⟩
          intro x hx
          have hqx := hq x hx
          unfold levelLt at hqx ⊢
          rw [(by assumption : p = q)]
          exact hqx
      · refine List.pairwise_cons.mpr ⟨?_, applyLevel_pairwise rest p s hrest⟩
        intro x hx
        have hqp : q < p := by
          rcases lt_trichotomy p q with hlt | heq | hgt
          · exact absurd hlt (by assumption)
          · exact absurd heq (by assumption)
          · exact hgt
        rcases mem_applyLevel rest p s x hx with h1 | h1
        · exact hq x h1
        · rw [h1.1]
          exact hqp

theorem applyLevel_zero_removes : ∀ (l : List PriceLevel) (p : ℚ),
    l.Pairwise levelLt → ∀ x ∈ applyLevel l p 0, x.1 ≠ p
  | [], p => by
    intro _ x hx
    unfold applyLevel at hx
    rw [if_pos rfl] at hx
    simp at hx
  | (q, t) :: rest, p => by
    intro h x hx
    have hq : ∀ y ∈ rest, levelLt (q, t) y := (List.pairwise_cons.mp h).1
    have hrest : rest.Pairwise levelLt := (List.pairwise_cons.mp h).2
    unfold applyLevel at hx
    split at hx
    · rw [if_pos rfl] at hx
      rcases List.mem_cons.mp hx with h1 | h1
      · rw [h1]
        exact ne_of_gt (by assumption : p < q)
      · exact ne_of_gt (lt_trans (by assumption : p < q) (hq x h1))
    · split at hx
      · rw [if_pos rfl] at hx
        have hqx := hq x hx
        unfold levelLt at hqx
        rw [(by assumption : p = q)]
        exact ne_of_gt hqx
      · rcases List.mem_cons.mp hx with h1 | h1
        · rw [h1]
          intro hcontra
          rcases lt_trichotomy p q with hlt | heq | hgt
          · exact (by assumption : ¬ p < q) hlt
          · exact (by assumption : ¬ p = q) heq
          · exact absurd hcontra.symm (ne_of_gt hgt)
        · exact applyLevel_zero_removes rest p hrest x h1

theorem applyDeltaPair_inv (depth : ℕ) (l : List PriceLevel) (ps : PriceLevel)
    (h : LadderInv depth l) : LadderInv depth (applyDeltaPair depth l ps) := by
  obtain ⟨hp, hs, _⟩ := h
  refine ⟨?_, ?_, ?_⟩
  · exact List.Pairwise.sublist (List.take_sublist _ _) (applyLevel_pairwise l ps.1 ps.2 hp)
  · intro x hx
    exact applyLevel_sizes l ps.1 ps.2 hs x (List.mem_of_mem_take hx)
  · exact List.length_take_le _ _

theorem applyDeltas_inv (depth : ℕ) : ∀ (pairs : List PriceLevel) (l : List PriceLevel),
    LadderInv depth l → LadderInv depth (applyDeltas depth l pairs)
  | [], l => fun h => h
  | ps :: rest, l => by
    intro h
    unfold applyDeltas
    simp only [List.foldl_cons]
    exact applyDeltas_inv depth rest _ (applyDeltaPair_inv depth l ps h)

/-- Claim C4: starting from a well-formed image, any sequence of delta
updates leaves the ladder with no zero-size level, levels strictly ordered
by distance from the best price and at most the configured depth of levels;
moreover under the ordering invariant a zero-size pair in a delta removes
its price level rather than storing it. -/
theorem ladder_merge_invariant (depth : ℕ) (image deltas : List PriceLevel)
    (h : LadderInv depth (applyImage image)) :
    LadderInv depth (applyDeltas depth (applyImage image) deltas)
    ∧ ∀ (l : List PriceLevel) (p : ℚ), l.Pairwise levelLt →
        ∀ x ∈ applyLevel l p 0, x.1 ≠ p :=
  ⟨applyDeltas_inv depth deltas (applyImage image) h,
    fun l p hp => applyLevel_zero_removes l p hp⟩

/-- Witness for C4: a concrete image followed by a removal, a replacement,
an insertion beyond the depth and an unknown-price removal. -/
theorem ladder_merge_witness :
    LadderInv 3 (applyDeltas 3 (applyImage [(3, 5), (3.5, 2), (4, 1)])
      [(3.5, 0), (3.2, 4), (5, 1), (7, 0)]) :=
  (ladder_merge_invariant 3 [(3, 5), (3.5, 2), (4, 1)] [(3.5, 0), (3.2, 4), (5, 1), (7, 0)]
    (by refine ⟨?_, ?_, ?_⟩ <;> with_unfolding_all decide)).1

/-! ### Shared lemmas on the reference strategy's candidate selection -/

theorem betterCandidate_eq_or (a b : BetCandidate) :
    betterCandidate a b = a ∨ betterCandidate a b = b := by
  unfold betterCandidate
  split_ifs <;> simp

theorem foldl_betterCandidate_mem : ∀ (t : List BetCandidate) (acc : BetCandidate),
    t.foldl betterCandidate acc ∈ acc :: t
  | [], acc => List.mem_cons_self acc []
  | c :: t, acc => by
    simp only [List.foldl_cons]
    have h := foldl_betterCandidate_mem t (betterCandidate acc c)
    rcases List.mem_cons.mp h with h1 | h1
    · rw [h1]
      rcases betterCandidate_eq_or acc c with h2 | h2 <;> rw [h2]
      · exact List.mem_cons_self _ _
      · exact List.mem_cons_of_mem _ (List.mem_cons_self _ _)
    · exact List.mem_cons_of_mem _ (List.mem_cons_of_mem _ h1)

theorem pickBest_mem (l : List BetCandidate) (c : BetCandidate)
    (h : pickBest l = some c) : c ∈ l := by
  cases l with
  | nil => simp [pickBest] at h
  | cons a t =>
    simp only [pickBest] at h
    injection h with h
    rw [← h]
    exact foldl_betterCandidate_mem t a

theorem candidates_decomp (cfg : StrategyConfig) (mid : String) (mins : ℚ)
    (runners : List RunnerCtx) (c : BetCandidate)
    (hc : c ∈ (marksRule1Evaluate cfg mid runners mins).candidates) :
    ∃ rp ∈ nonFavourites cfg runners, ∃ z, classifyZone rp.2 = some z
      ∧ c = mkCandidate cfg mid mins rp z := by
  unfold marksRule1Evaluate at hc
  cases hpick : pickBest (qualifyingCandidates cfg mid mins runners) with
  | none =>
    rw [hpick] at hc
    simp at hc
  | some c0 =>
    rw [hpick] at hc
    simp only [List.mem_singleton] at hc
    subst hc
    have hmem := pickBest_mem _ _ hpick
    unfold qualifyingCandidates at hmem
    rw [List.mem_filterMap] at hmem
    obtain ⟨rp, hrp, hmap⟩ := hmem
    cases hz : classifyZone rp.2 with
    | none =>
      rw [hz] at hmap
      simp at hmap
    | some z =>
      rw [hz] at hmap
      simp only [Option.map_some', Option.some.injEq] at hmap
      exact ⟨rp, hrp, z, hz, hmap.symm⟩

theorem pricedRunners_mem (runners : List RunnerCtx) (rp : RunnerCtx × ℚ) :
    rp ∈ pricedRunners runners ↔ rp.1 ∈ runners ∧ bestLay rp.1 = some rp.2 := by
  unfold pricedRunners
  rw [List.mem_filterMap]
  constructor
  · rintro ⟨r, hr, hmap⟩
    cases hb : bestLay r with
    | none =>
      rw [hb] at hmap
      simp at hmap
    | some p =>
      rw [hb] at hmap
      simp only [Option.map_some', Option.some.injEq] at hmap
      rw [← hmap]
      exact ⟨hr, hb⟩
  · rintro ⟨h1, h2⟩
    exact ⟨rp.1, h1, by rw [h2]; simp⟩

theorem pricedRunners_nodup (runners : List RunnerCtx) (h : runners.Nodup) :
    (pricedRunners runners).Nodup := by
  unfold pricedRunners
  refine List.Nodup.filterMap ?_ h
  intro a a' b hb hb'
  have e1 : b.1 = a := by
    cases ha : bestLay a with
    | none => rw [ha] at hb; simp at hb
    | some p =>
      rw [ha] at hb
      simp only [Option.map_some', Option.mem_def, Option.some.injEq] at hb
      rw [← hb]
  have e2 : b.1 = a' := by
    cases ha : bestLay a' with
    | none => rw [ha] at hb'; simp at hb'
    | some p =>
      rw [ha] at hb'
      simp only [Option.map_some', Option.mem_def, Option.some.injEq] at hb'
      rw [← hb']
  exact e1.symm.trans e2

/-! ### C5: zone classification -/

/-- Claim C5: the zone classification is a deterministic function of the
best lay price: 3.75 is PRIME, 3.20 is STRONG, 4.20 is SECONDARY, while
2.99 and 4.50 yield no zone; any classified price lies in [3.00, 4.49], so
every candidate the strategy proposes has odds in [3.00, 4.49]. -/
theorem zone_classification_spec :
    classifyZone 3.75 = some Zone.PRIME
    ∧ classifyZone 3.2 = some Zone.STRONG
    ∧ classifyZone 4.2 = some Zone.SECONDARY
    ∧ classifyZone 2.99 = none
    ∧ classifyZone 4.5 = none
    ∧ (∀ p z, classifyZone p = some z → 3 ≤ p ∧ p ≤ 4.49)
    ∧ (∀ cfg mid mins runners, ∀ c ∈ (marksRule1Evaluate cfg mid runners mins).candidates,
        3 ≤ c.odds ∧ c.odds ≤ 4.49) := by
  have hgen : ∀ p z, classifyZone p = some z → 3 ≤ p ∧ p ≤ 4.49 := by
    intro p z h
    unfold classifyZone at h
    split_ifs at h with h1 h2 h3
    · exact ⟨by linarith [h1.1], by linarith [h1.2]⟩
    · exact ⟨by linarith [h2.1], by linarith [h2.2]⟩
    · exact ⟨by linarith [h3.1], by linarith [h3.2]⟩
  refine ⟨?_, ?_, ?_, ?_, ?_, hgen, ?_⟩
  · with_unfolding_all decide
  · with_unfolding_all decide
  · with_unfolding_all decide
  · with_unfolding_all decide
  · with_unfolding_all decide
  · intro cfg mid mins runners c hc
    obtain ⟨rp, _, z, hz, hceq⟩ := candidates_decomp cfg mid mins runners c hc
    rw [hceq]
    exact hgen rp.2 z hz

/-- Witness for C5: the bound applied at price 3.2. -/
theorem zone_classification_witness : 3 ≤ (3.2 : ℚ) ∧ (3.2 : ℚ) ≤ 4.49 :=
  zone_classification_spec.2.2.2.2.2.1 3.2 Zone.STRONG zone_classification_spec.2.1

/-! ### C7: time filter halves the stake beyond the long horizon -/

/-- Claim C7: every candidate's stake is the zone's base stake, except
beyond the long-horizon threshold where it is half the base stake clamped
up to the minimum stake; with the default configuration a candidate at 500
minutes to start carries half the stake (clamped at £1) of the same-zone
candidate at 100 minutes. -/
theorem time_filter_spec (cfg : StrategyConfig) (mid : String) (mins : ℚ)
    (runners : List RunnerCtx) :
    (∀ c ∈ (marksRule1Evaluate cfg mid runners mins).candidates,
      c.stake = if cfg.longHorizonMins < mins then
          max cfg.minStake (baseStake cfg c.zone / 2)
        else baseStake cfg c.zone)
    ∧ (∀ c1 c2 : BetCandidate,
        c1 ∈ (marksRule1Evaluate defaultStrategyConfig mid runners 500).candidates →
        c2 ∈ (marksRule1Evaluate defaultStrategyConfig mid runners 100).candidates →
        c1.zone = c2.zone → c1.stake = max 1 (c2.stake / 2)) := by
  have hmain : ∀ (cfg0 : StrategyConfig) (mins0 : ℚ),
      ∀ c ∈ (marksRule1Evaluate cfg0 mid runners mins0).candidates,
        c.stake = if cfg0.longHorizonMins < mins0 then
            max cfg0.minStake (baseStake cfg0 c.zone / 2)
          else baseStake cfg0 c.zone := by
    intro cfg0 mins0 c hc
    obtain ⟨rp, _, z, _, hceq⟩ := candidates_decomp cfg0 mid mins0 runners c hc
    subst hceq
    rfl
  refine ⟨hmain cfg mins, ?_⟩
  intro c1 c2 h1 h2 hzz
  have e1 := hmain defaultStrategyConfig 500 c1 h1
  have e2 := hmain defaultStrategyConfig 100 c2 h2
  rw [if_pos (by norm_num [defaultStrategyConfig])] at e1
  rw [if_neg (by norm_num [defaultStrategyConfig])] at e2
  rw [e1, hzz, ← e2]
  rfl

/-- Witness for C7: in a concrete race 500 minutes out the PRIME candidate
carries the halved, clamped stake. -/
theorem time_filter_witness :
    (⟨2, "m", 3.75, 3 / 2, 3 / 2 * (3.75 - 1), Zone.PRIME⟩ : BetCandidate).stake =
      if defaultStrategyConfig.longHorizonMins < 500 then
        max defaultStrategyConfig.minStake
          (baseStake defaultStrategyConfig
            (⟨2, "m", 3.75, 3 / 2, 3 / 2 * (3.75 - 1), Zone.PRIME⟩ : BetCandidate).zone / 2)
      else baseStake defaultStrategyConfig
        (⟨2, "m", 3.75, 3 / 2, 3 / 2 * (3.75 - 1), Zone.PRIME⟩ : BetCandidate).zone :=
  (time_filter_spec defaultStrategyConfig "m" 500
      [⟨1, [(2.5, 10)]⟩, ⟨2, [(3.75, 5)]⟩, ⟨3, [(3.2, 5)]⟩, ⟨4, [(6, 5)]⟩]).1
    _ (by with_unfolding_all decide)

/-! ### C6: the favourites are never candidates -/

/-- Claim C6: any runner among the `skipTopN` (default 2) lowest-priced
runners of the race is never proposed as a candidate, even if its price
lies in the qualifying band.  A runner is among the `skipTopN` lowest when
at most `skipTopN` priced runners have a best lay price at or below its
own; with distinct prices this is exactly the favourite and, under the
default, the second favourite — in particular the single best-priced
runner. -/
theorem favourite_never_candidate (cfg : StrategyConfig) (mid : String) (mins : ℚ)
    (runners : List RunnerCtx) (r : RunnerCtx) (pr : ℚ)
    (hmem : r ∈ runners) (hbl : bestLay r = some pr)
    (hids : (runners.map RunnerCtx.selectionId).Nodup)
    (hrank : ((pricedRunners runners).filter (fun rp => rp.2 ≤ pr)).length
        ≤ cfg.skipTopN) :
    ∀ c ∈ (marksRule1Evaluate cfg mid runners mins).candidates,
      c.selectionId ≠ r.selectionId := by
  intro c hc hcid
  obtain ⟨rp, hrp, z, hz, hceq⟩ := candidates_decomp cfg mid mins runners c hc
  unfold nonFavourites at hrp
  have hperm : List.Perm (sortedByLay runners) (pricedRunners runners) :=
    List.perm_insertionSort priceLE _
  have hrp_p : rp ∈ pricedRunners runners :=
    hperm.mem_iff.mp (List.mem_of_mem_drop hrp)
  obtain ⟨hr_mem, hr_bl⟩ := (pricedRunners_mem runners rp).mp hrp_p
  have hcid2 : rp.1.selectionId = r.selectionId := by
    rw [hceq] at hcid
    exact hcid
  have hr1 : rp.1 = r := List.inj_on_of_nodup_map hids hr_mem hmem hcid2
  have hp2 : rp.2 = pr := by
    rw [hr1, hbl] at hr_bl
    injection hr_bl with h
    exact h.symm
  have hrp_eq : rp = (r, pr) := by
    rw [← hr1, ← hp2]
  have hsorted : (sortedByLay runners).Sorted priceLE :=
    List.sorted_insertionSort priceLE _
  have hdrop : (r, pr) ∈ (sortedByLay runners).drop cfg.skipTopN := by
    rw [← hrp_eq]
    exact hrp
  have htake_le : ∀ a ∈ (sortedByLay runners).take cfg.skipTopN, a.2 ≤ pr :=
    fun a ha => hsorted.rel_of_mem_take_of_mem_drop ha hdrop
  have hlen : cfg.skipTopN < (sortedByLay runners).length := by
    by_contra hcontra
    push_neg at hcontra
    rw [List.drop_eq_nil_of_le hcontra] at hdrop
    simp at hdrop
  have htake_len : ((sortedByLay runners).take cfg.skipTopN).length = cfg.skipTopN := by
    rw [List.length_take]
    omega
  have hfil_take : ((sortedByLay runners).take cfg.skipTopN).filter (fun a => a.2 ≤ pr)
      = (sortedByLay runners).take cfg.skipTopN := by
    rw [List.filter_eq_self]
    intro a ha
    exact decide_eq_true (htake_le a ha)
  have hfil_drop :
      0 < (((sortedByLay runners).drop cfg.skipTopN).filter (fun a => a.2 ≤ pr)).length :=
    List.length_pos_of_mem (List.mem_filter.mpr ⟨hdrop, by simp⟩)
  have hsplit : ((sortedByLay runners).filter (fun a => a.2 ≤ pr)).length
      = cfg.skipTopN
        + (((sortedByLay runners).drop cfg.skipTopN).filter (fun a => a.2 ≤ pr)).length := by
    conv_lhs => rw [← List.take_append_drop cfg.skipTopN (sortedByLay runners)]
    rw [List.filter_append, List.length_append, hfil_take, htake_len]
  have hperm_len : ((sortedByLay runners).filter (fun a => a.2 ≤ pr)).length
      = ((pricedRunners runners).filter (fun a => a.2 ≤ pr)).length :=
    (hperm.filter _).length_eq
  omega

/-- Witness for C6: in a concrete race the second favourite (selection 3 at
price 3.2, inside the qualifying band) never appears among the candidate
selections under the default skip-top-2 configuration. -/
theorem favourite_never_candidate_witness :
    (3 : ℤ) ∉ ((marksRule1Evaluate defaultStrategyConfig "m"
        [⟨1, [(2.5, 10)]⟩, ⟨2, [(3.75, 5)]⟩, ⟨3, [(3.2, 5)]⟩, ⟨4, [(6, 5)]⟩]
        100).candidates.map BetCandidate.selectionId) := by
  intro hmem
  rw [List.mem_map] at hmem
  obtain ⟨c, hc, hcid⟩ := hmem
  exact favourite_never_candidate defaultStrategyConfig "m" 100
      [⟨1, [(2.5, 10)]⟩, ⟨2, [(3.75, 5)]⟩, ⟨3, [(3.2, 5)]⟩, ⟨4, [(6, 5)]⟩]
      ⟨3, [(3.2, 5)]⟩ 3.2
      (by with_unfolding_all decide) (by with_unfolding_all decide)
      (by with_unfolding_all decide) (by with_unfolding_all decide)
      c hc hcid

end Chimera
